import Mathlib

/-!
Verification of the GithubRepoStatistics analytics engine.

This file shallowly embeds the analytics computations of the repository:

* `Stats` — the commit aggregator and gap filler of `src/app/api/stats/route.ts`
  (`normalizeAuthorName`, the per-commit fold of `parseGitLog`, and the
  zero-record gap filling of `commitActivity`).
* `AnalyticsV1` — the earlier generation of `src/app/api/analytics/route.ts`
  (first document in the file): its `normalizeAuthorName` (which has no
  exclusion check) and its `calculateProjectHealth`.
* `Analytics` — the final generation of `src/app/api/analytics/route.ts`
  (second document in the file): `normalizeAuthorName`,
  `calculateConsistencyScore`, `calculateTrend`, `getWeekKey`,
  `calculateProjectHealth`.
* `Chart` — `calculateTrendAnalysis` of `src/components/TrendAnalysisChart.tsx`.

Modelling conventions, used consistently below:

* JavaScript numbers are modelled by `ℚ` (exact arithmetic); counters by `Nat`
  and day ordinals by `Int`.  None of the verified properties sits near a
  floating-point rounding boundary (the thresholds compared against are
  constants such as 20, 1.2, 0.8, 500 with wide margins).
* Calendar dates (`YYYY-MM-DD` strings, `Date` objects) are modelled at day
  granularity by `Int` day ordinals (days since the Unix epoch): lexicographic
  comparison of ISO day strings is order-isomorphic to integer comparison, and
  the `setDate(getDate()+1)` loop is `+ 1`.  Timestamps inside a day are `ℚ`
  day fractions.  `getFullYear`/`getMonth`/`new Date(y,0,1)` are modelled with
  an explicit proleptic-Gregorian conversion (`civilFromDays`/`daysFromCivil`).
* JavaScript objects and `Map`s used as dictionaries are modelled by
  association lists in insertion order (`updateA` is read-modify-write of one
  key); `Set`s of strings by duplicate-free lists (`insertIfAbsent`).
* `Array.prototype.sort` (a stable sort) is modelled by `List.insertionSort`
  with the non-strict comparator relation, which is also stable.
* `Math.sqrt` has no exact `ℚ` counterpart.  Where the code compares against a
  square root (`Chart` anomaly detection) the embedded test is the equivalent
  squared comparison, and the equivalence with the literal `|d| > 2·√v` form is
  proved over `ℝ` (`chart_anomaly_threshold_matches_spec`).  Where only the
  value of a square root flows into an output that no claim inspects
  (`Analytics.calculateConsistencyScore`), the embedding is parameterised by
  the square-root function.
-/

/-- Association-list lookup (a JavaScript dictionary read `m[k]`). -/
def lookupA {K V : Type} [DecidableEq K] (k : K) : List (K × V) → Option V
  | [] => none
  | p :: rest => if p.1 = k then some p.2 else lookupA k rest

/-- Read-modify-write of one key of a JavaScript dictionary:
`if (!m[k]) m[k] = dflt; m[k] = f(m[k])`.  A new key is appended, preserving
insertion order (the iteration order of string-keyed objects and `Map`s). -/
def updateA {K V : Type} [DecidableEq K] (k : K) (dflt : V) (f : V → V) :
    List (K × V) → List (K × V)
  | [] => [(k, f dflt)]
  | p :: rest => if p.1 = k then (p.1, f p.2) :: rest else p :: updateA k dflt f rest

/-- The keys of an association list, in insertion order. -/
def keysOf {K V : Type} (l : List (K × V)) : List K := l.map (fun p => p.1)

/-- `Set.add` for string sets modelled as duplicate-free lists. -/
def insertIfAbsent {K : Type} [DecidableEq K] (k : K) (l : List K) : List K :=
  if k ∈ l then l else l ++ [k]

/-- JavaScript `Math.round(q * 100) / 100` (round half towards positive
infinity, as `Math.round` does, which is Mathlib's `round`). -/
def round2 (q : ℚ) : ℚ := (round (q * 100) : ℤ) / 100

/-- JavaScript `Math.round(q * 1000) / 1000`. -/
def round3 (q : ℚ) : ℚ := (round (q * 1000) : ℤ) / 1000

/-- Minimum of a list of day ordinals (`0` on the empty list, never used
there by the theorems below). -/
def minList : List Int → Int
  | [] => 0
  | a :: l => l.foldl min a

/-- Maximum of a list of day ordinals (`0` on the empty list). -/
def maxList : List Int → Int
  | [] => 0
  | a :: l => l.foldl max a

/-- Day ordinal of proleptic-Gregorian `(year, month, day)` (month `1..12`),
days since 1970-01-01.  Models the calendar arithmetic of the JavaScript
`Date` API at day granularity (the Howard Hinnant civil-from-days algorithm,
written for Lean's floor division on `Int`). -/
def daysFromCivil (y m d : Int) : Int :=
  let yy := if m ≤ 2 then y - 1 else y
  let era := yy / 400
  let yoe := yy - era * 400
  let mp := if m > 2 then m - 3 else m + 9
  let doy := (153 * mp + 2) / 5 + d - 1
  let doe := yoe * 365 + yoe / 4 - yoe / 100 + doy
  era * 146097 + doe - 719468

/-- Inverse of `daysFromCivil`: `(year, month, day)` of a day ordinal. -/
def civilFromDays (z : Int) : Int × Int × Int :=
  let z2 := z + 719468
  let era := z2 / 146097
  let doe := z2 - era * 146097
  let yoe := (doe - doe / 1460 + doe / 36524 - doe / 146096) / 365
  let y := yoe + era * 400
  let doy := doe - (365 * yoe + yoe / 4 - yoe / 100)
  let mp := (5 * doy + 2) / 153
  let d := doy - (153 * mp + 2) / 5 + 1
  let m := if mp < 10 then mp + 3 else mp - 9
  (if m ≤ 2 then y + 1 else y, m, d)

/-- `Date.prototype.getFullYear` of a day ordinal. -/
def yearOfDay (z : Int) : Int := (civilFromDays z).1

/-- `Date.prototype.getMonth` of a day ordinal (`0`-based months, as in
JavaScript). -/
def monthOfDay (z : Int) : Int := (civilFromDays z).2.1 - 1

/-- `Date.prototype.getDay` of a day ordinal (`0` = Sunday; day `0`,
1970-01-01, was a Thursday). -/
def dowOfDay (z : Int) : Int := (z + 4) % 7

/-- Author-grouping entry of a project configuration
(`{ primaryName, aliases[] }`). -/
structure AuthorGroup where
  primaryName : String
  aliases : List String
deriving DecidableEq

/-- Project configuration: alias groups and excluded identities
(`{ groupedAuthors, excludedUsers }`). -/
structure ProjectConfig where
  groupedAuthors : List AuthorGroup
  excludedUsers : List String
deriving DecidableEq

/-- Modelled from the spec (section 4.1), for refinement comparison only: the
author-normalization rule in the spec's own words — excluded identities are
dropped (`none`); otherwise an identity appearing in some group's alias list
becomes that group's primary name; otherwise it is returned unchanged. -/
def normalizeRuleSpec (authorName : String) (config : ProjectConfig) : Option String :=
  if authorName ∈ config.excludedUsers then none
  else
    match config.groupedAuthors.find? (fun g => authorName ∈ g.aliases) with
    | some g => some g.primaryName
    | none => some authorName

namespace Stats

/-- `normalizeAuthorName` of `src/app/api/stats/route.ts` (lines 158–172):
excluded users map to the sentinel `""`, then the first alias group containing
the name wins, otherwise the name passes through. -/
def normalizeAuthorName (authorName : String) (config : ProjectConfig) : String :=
  if authorName ∈ config.excludedUsers then ""
  else
    match config.groupedAuthors.find? (fun g => authorName ∈ g.aliases) with
    | some g => g.primaryName
    | none => authorName

/-- One `--numstat` file entry as parsed by simple-git.  `insertions` and
`deletions` are `none` when not numeric (binary files), modelling the
`typeof fileChange.insertions === 'number'` checks. -/
structure FileChange where
  file : String
  insertions : Option Int
  deletions : Option Int
deriving DecidableEq

/-- One commit of the git log, as consumed by `parseGitLog`.  `day` is the day
ordinal of `commit.date.substring(0, 10)`; `body` is `none` when absent or
empty (both are falsy in the `if (commit.body)` check). -/
structure CommitLogEntry where
  hash : String
  day : Int
  author_name : String
  body : Option String
  diff : Option (List FileChange)
deriving DecidableEq

/-- Per-contributor aggregate (`ContributorStats`); `filesChanged` is the set
of touched paths, modelled as a duplicate-free list. -/
structure ContributorStats where
  commits : Nat
  linesAdded : Int
  linesDeleted : Int
  filesChanged : List String
deriving DecidableEq

/-- The zero aggregate a newly seen contributor starts from. -/
def zeroStats : ContributorStats :=
  { commits := 0, linesAdded := 0, linesDeleted := 0, filesChanged := [] }

/-- One row of `commitActivity`. -/
structure ActivityEntry where
  date : Int
  count : Nat
  contributorCount : Nat
  linesAdded : Int
  linesDeleted : Int
deriving DecidableEq

/-- Leading-decimal-digit value of a character list (`none` when the first
character is not a digit), the core of JavaScript `parseInt(s, 10)`. -/
def parseDigitsAux : List Char → Nat → Nat
  | [], acc => acc
  | c :: cs, acc => if c.isDigit then parseDigitsAux cs (acc * 10 + (c.toNat - 48)) else acc

/-- Parse leading decimal digits; `none` when none lead. -/
def parseDigits : List Char → Option Nat
  | [] => none
  | c :: cs => if c.isDigit then some (parseDigitsAux cs (c.toNat - 48)) else none

/-- JavaScript `parseInt(s, 10)` restricted to what tab-separated `--numstat`
data exercises: optional surrounding whitespace and sign, then leading decimal
digits; `none` models `NaN`. -/
def parseIntJS (s : String) : Option Int :=
  match s.trim.data with
  | '-' :: cs => (parseDigits cs).map (fun n => -(n : Int))
  | '+' :: cs => (parseDigits cs).map (fun n => (n : Int))
  | cs => (parseDigits cs).map (fun n => (n : Int))

/-- The fallback numstat parse of a commit body (lines 258–273 of the stats
route): tab-separated `added deleted file` triples with numeric counts. -/
def numstatOfBody (body : String) : List (Int × Int × String) :=
  (body.trim.splitOn "\n").filterMap fun line =>
    match line.splitOn "\t" with
    | [a, b, f] =>
      match parseIntJS a, parseIntJS b with
      | some added, some deleted => some (added, deleted, f)
      | _, _ => none
    | _ => none

/-- The usable per-file line statistics of a commit: the structured diff when
present (keeping only files with numeric counts), else the body fallback, else
nothing.  The stats route computes this twice inline (once for the contributor
aggregate, lines 243–274, once for the per-day totals, lines 291–311); the
two copies are identical, so they are factored into this one definition. -/
def commitLineStats (c : CommitLogEntry) : List (Int × Int × String) :=
  match c.diff with
  | some files =>
    files.filterMap fun f =>
      match f.insertions, f.deletions with
      | some i, some d => some (i, d, f.file)
      | _, _ => none
  | none =>
    match c.body with
    | some b => numstatOfBody b
    | none => []

/-- Accumulator of the per-commit loop of `parseGitLog` (lines 188–312). -/
structure ParseState where
  totalCommitsWithConfig : Nat
  contributors : List (String × ContributorStats)
  commitCountsByDate : List (Int × Nat)
  contributorsByDate : List (Int × List String)
  linesAddedByDate : List (Int × Int)
  linesDeletedByDate : List (Int × Int)
  allContributorsSet : List String
  firstCommitDate : Option Int
  lastCommitDate : Option Int
  totalCommitsBeforeConfig : Nat

/-- The empty accumulator. -/
def initState : ParseState :=
  { totalCommitsWithConfig := 0, contributors := [], commitCountsByDate := [],
    contributorsByDate := [], linesAddedByDate := [], linesDeletedByDate := [],
    allContributorsSet := [], firstCommitDate := none, lastCommitDate := none,
    totalCommitsBeforeConfig := 0 }

/-- The canonical author of a commit: the configured normalization when a
configuration is present, the raw name otherwise
(`config ? normalizeAuthorName(...) : commit.author_name`). -/
def normalizedAuthorOf (config : Option ProjectConfig) (c : CommitLogEntry) : String :=
  match config with
  | some cfg => normalizeAuthorName c.author_name cfg
  | none => c.author_name

/-- Whether a commit survives the author filter and normalization, i.e. is
neither skipped by `options.author` nor excluded (`normalizedAuthor === ''`). -/
def survives (author : Option String) (config : Option ProjectConfig)
    (c : CommitLogEntry) : Bool :=
  (match author with
   | some a => c.author_name == a
   | none => true) &&
  (normalizedAuthorOf config c != "")

/-- One iteration of the `for (const commit of log.all)` loop of
`parseGitLog`.  The contributor record is created on first sight and then
mutated in place (`commits++`, line totals, file set); both mutations of one
iteration are combined into a single `updateA`. -/
def stepCommit (author : Option String) (config : Option ProjectConfig)
    (st : ParseState) (c : CommitLogEntry) : ParseState :=
  let st :=
    { st with
      allContributorsSet := insertIfAbsent c.author_name st.allContributorsSet,
      firstCommitDate := some (match st.firstCommitDate with
        | none => c.day
        | some f => min f c.day),
      lastCommitDate := some (match st.lastCommitDate with
        | none => c.day
        | some f => max f c.day) }
  if (match author with
      | some a => c.author_name != a
      | none => false) then st
  else
    let st := { st with totalCommitsBeforeConfig := st.totalCommitsBeforeConfig + 1 }
    let normalizedAuthor := normalizedAuthorOf config c
    if normalizedAuthor == "" then st
    else
      let lineStats := commitLineStats c
      let addedSum : Int := (lineStats.map (fun t => t.1)).sum
      let deletedSum : Int := (lineStats.map (fun t => t.2.1)).sum
      { st with
        totalCommitsWithConfig := st.totalCommitsWithConfig + 1,
        contributors := updateA normalizedAuthor zeroStats
          (fun s =>
            { commits := s.commits + 1,
              linesAdded := s.linesAdded + addedSum,
              linesDeleted := s.linesDeleted + deletedSum,
              filesChanged := lineStats.foldl (fun acc t => insertIfAbsent t.2.2 acc)
                s.filesChanged })
          st.contributors,
        commitCountsByDate := updateA c.day 0 (fun n => n + 1) st.commitCountsByDate,
        contributorsByDate := updateA c.day []
          (fun s => insertIfAbsent normalizedAuthor s) st.contributorsByDate,
        linesAddedByDate := updateA c.day 0 (fun n => n + addedSum) st.linesAddedByDate,
        linesDeletedByDate := updateA c.day 0 (fun n => n + deletedSum)
          st.linesDeletedByDate }

/-- The whole per-commit loop. -/
def foldLog (author : Option String) (config : Option ProjectConfig)
    (log : List CommitLogEntry) (st : ParseState) : ParseState :=
  log.foldl (stepCommit author config) st

/-- Comparator relation of the two `.sort((a, b) => a.date.localeCompare(b.date))`
calls on activity entries. -/
def entryLE (a b : ActivityEntry) : Prop := a.date ≤ b.date

instance : DecidableRel entryLE := fun a b => inferInstanceAs (Decidable (a.date ≤ b.date))

instance : IsTotal ActivityEntry entryLE := ⟨fun a b => Int.le_total a.date b.date⟩

instance : IsTrans ActivityEntry entryLE := ⟨fun _ _ _ h h2 => le_trans h h2⟩

/-- The stable `.sort` by date of activity entries. -/
def sortActivity (l : List ActivityEntry) : List ActivityEntry :=
  List.insertionSort entryLE l

/-- The activity entry of one sparse `commitCountsByDate` pair (the
`Object.entries(...).map(...)` of lines 321–328). -/
def entryOfPair (st : ParseState) (p : Int × Nat) : ActivityEntry :=
  { date := p.1,
    count := p.2,
    contributorCount := ((lookupA p.1 st.contributorsByDate).map List.length).getD 0,
    linesAdded := (lookupA p.1 st.linesAddedByDate).getD 0,
    linesDeleted := (lookupA p.1 st.linesDeletedByDate).getD 0 }

/-- The activity entry of one calendar day of the gap-filled range (the
`completeActivity` construction of lines 343–349, all fields defaulting to 0). -/
def entryOfDay (st : ParseState) (d : Int) : ActivityEntry :=
  { date := d,
    count := (lookupA d st.commitCountsByDate).getD 0,
    contributorCount := ((lookupA d st.contributorsByDate).map List.length).getD 0,
    linesAdded := (lookupA d st.linesAddedByDate).getD 0,
    linesDeleted := (lookupA d st.linesDeletedByDate).getD 0 }

/-- All calendar days from `first` to `last` inclusive (the
`for (let d = startDate; d <= endDate; d.setDate(d.getDate() + 1))` loop). -/
def dayRange (first last : Int) : List Int :=
  if first ≤ last then
    (List.range ((last - first).toNat + 1)).map (fun (i : Nat) => first + (i : Int))
  else []

/-- The `commitActivity` series: sparse entries sorted by date, then — when
non-empty — replaced by one entry per calendar day between the first and last
sparse date (lines 320–352). -/
def commitActivityOf (st : ParseState) : List ActivityEntry :=
  let sparse := sortActivity (st.commitCountsByDate.map (entryOfPair st))
  match sparse with
  | [] => []
  | first :: rest =>
    let startDay := first.date
    let endDay := ((first :: rest).getLastD first).date
    sortActivity ((dayRange startDay endDay).map (entryOfDay st))

/-- Result record of `parseGitLog` (the fields computed in memory; the remote
URL, an I/O concern, is out of scope). -/
structure RepoStats where
  totalCommits : Nat
  totalCommitsWithConfig : Nat
  contributors : List (String × ContributorStats)
  commitActivity : List ActivityEntry
  allContributors : List String
  firstCommitDate : Option Int
  lastCommitDate : Option Int

/-- Comparator relation of `Array.from(...).sort()` on contributor names. -/
def stringLE (a b : String) : Prop := a ≤ b

instance : DecidableRel stringLE := fun a b => inferInstanceAs (Decidable (a ≤ b))

instance : IsTotal String stringLE := ⟨fun a b => le_total a b⟩

instance : IsTrans String stringLE := ⟨fun _ _ _ h h2 => le_trans h h2⟩

/-- `parseGitLog` of `src/app/api/stats/route.ts` (lines 175–375), given the
already-retrieved log: folds every commit through the aggregation loop, then
formats and gap-fills `commitActivity` and the remaining summary fields. -/
def parseGitLog (log : List CommitLogEntry) (author : Option String)
    (config : Option ProjectConfig) : RepoStats :=
  let st := foldLog author config log initState
  { totalCommits := st.totalCommitsBeforeConfig,
    totalCommitsWithConfig := st.totalCommitsWithConfig,
    contributors := st.contributors,
    commitActivity := commitActivityOf st,
    allContributors := List.insertionSort stringLE
      ((st.allContributorsSet.foldl
        (fun acc name =>
          let normalized := match config with
            | some cfg => normalizeAuthorName name cfg
            | none => name
          if normalized != "" then insertIfAbsent normalized acc else acc)
        [])),
    firstCommitDate := st.firstCommitDate,
    lastCommitDate := st.lastCommitDate }

/-- The commits of a log that survive the author filter and normalization. -/
def survivorsOf (author : Option String) (config : Option ProjectConfig)
    (log : List CommitLogEntry) : List CommitLogEntry :=
  log.filter (survives author config)

/-- Total of the `commits` counters of a contributor aggregate. -/
def sumCommits (l : List (String × ContributorStats)) : Nat :=
  (l.map (fun p => p.2.commits)).sum

end Stats

/-- Velocity trend direction tags. -/
inductive TrendDir
  | increasing
  | decreasing
  | stable
deriving DecidableEq

/-- 30-day contributor trend tags. -/
inductive Trend30
  | improving
  | declining
  | stable
deriving DecidableEq

/-- One file entry of an analytics `CommitData.diff` (always numeric there). -/
structure AFileChange where
  file : String
  changes : ℚ
  insertions : ℚ
  deletions : ℚ
deriving DecidableEq

/-- `CommitData` of `src/app/api/analytics/route.ts`.  `date` is a timestamp
in days (day-ordinal plus day fraction); millisecond arithmetic of the source
scales to day arithmetic here. -/
structure CommitData where
  hash : String
  author : String
  date : ℚ
  message : String
  body : Option String
  diff : Option (List AFileChange)
deriving DecidableEq

/-- `ContributorData` of the analytics route. -/
structure ContributorData where
  commits : Nat
  linesAdded : ℚ
  linesDeleted : ℚ
  filesChanged : Nat
deriving DecidableEq

/-- `developmentVelocity` component of `ProjectHealth`. -/
structure DevelopmentVelocity where
  current : ℚ
  trend : TrendDir
  changePercent : ℚ
deriving DecidableEq

/-- `teamCollaboration` component of `ProjectHealth`.  `busFactor` is `ℚ`
because the two generations of the scorer return a count (final) and a
percentage-like figure (earlier). -/
structure TeamCollaboration where
  score : ℚ
  activeDevelopers : Nat
  newContributors : Nat
  busFactor : ℚ
deriving DecidableEq

/-- `codeQuality` component of `ProjectHealth`. -/
structure CodeQuality where
  averageCommitSize : ℚ
  refactoringRatio : ℚ
  largeCommitFrequency : ℚ
deriving DecidableEq

/-- `ProjectHealth` of the analytics route. -/
structure ProjectHealth where
  overallScore : ℚ
  developmentVelocity : DevelopmentVelocity
  teamCollaboration : TeamCollaboration
  codeQuality : CodeQuality
deriving DecidableEq

/-- Comparator relation of `commits.sort((a, b) => date(a) - date(b))`. -/
def commitDateLE (a b : CommitData) : Prop := a.date ≤ b.date

instance : DecidableRel commitDateLE := fun a b => inferInstanceAs (Decidable (a.date ≤ b.date))

instance : IsTotal CommitData commitDateLE := ⟨fun a b => le_total a.date b.date⟩

instance : IsTrans CommitData commitDateLE := ⟨fun _ _ _ h h2 => le_trans h h2⟩

/-- The stable date sort of an analytics commit array. -/
def sortCommits (l : List CommitData) : List CommitData :=
  List.insertionSort commitDateLE l

/-- A placeholder commit for `headD`/`getLastD` reads that the source only
performs on arrays known to be non-empty. -/
def dummyCommit : CommitData :=
  { hash := "", author := "", date := 0, message := "", body := none, diff := none }

/-- Total line churn of a commit (`diff.files` insertions plus deletions,
`0` without a diff). -/
def commitChanges (c : CommitData) : ℚ :=
  match c.diff with
  | some files => (files.map (fun f => f.insertions + f.deletions)).sum
  | none => 0

/-- `getWeekKey` of the analytics route (lines 960–964): the pair
`(getFullYear(date), ceil((date − Jan 1) / week))`, standing for the string
`` `${year}-W${week}` `` (the pair determines the string and vice versa). -/
def getWeekKey (date : ℚ) : Int × Int :=
  let year := yearOfDay ⌊date⌋
  let week := ⌈(date - (daysFromCivil year 1 1 : ℚ)) / 7⌉
  (year, week)

namespace AnalyticsV1

/-- `normalizeAuthorName` of the earlier analytics generation (lines 562–571
of `src/app/api/analytics/route.ts`): alias groups only — this version never
consults `excludedUsers`. -/
def normalizeAuthorName (authorName : String) (config : ProjectConfig) : String :=
  match config.groupedAuthors.find? (fun g => authorName ∈ g.aliases) with
  | some g => g.primaryName
  | none => authorName

/-- `calculateProjectHealth` of the earlier analytics generation (lines
363–438): a weighted additive score capped at 100 by `Math.min`. -/
def calculateProjectHealth (commits : List CommitData)
    (contributors : List (String × ContributorData)) (totalWeeks : ℚ) : ProjectHealth :=
  let activeDevelopers := contributors.length
  let totalCommits := commits.length
  let totalLines : ℚ := (commits.map commitChanges).sum
  let averageCommitSize : ℚ := if totalCommits > 0 then totalLines / totalCommits else 0
  let refactoringRatio : ℚ :=
    ((commits.map (fun c =>
        match c.diff with
        | some files =>
          let deletions := (files.map (fun f => f.deletions)).sum
          let insertions := (files.map (fun f => f.insertions)).sum
          deletions / max 1 insertions
        | none => 0)).sum) / max 1 (totalCommits : ℚ)
  let largeCommits := (commits.filter (fun c =>
    match c.diff with
    | some files => decide ((files.map (fun f => f.insertions + f.deletions)).sum > 500)
    | none => false)).length
  let largeCommitFrequency : ℚ :=
    if totalCommits > 0 then (largeCommits : ℚ) / (totalCommits : ℚ) else 0
  let currentVelocity : ℚ := if totalWeeks > 0 then (totalCommits : ℚ) / totalWeeks else 0
  let trend : TrendDir :=
    if currentVelocity > 10 then .increasing
    else if currentVelocity < 5 then .decreasing
    else .stable
  let changePercent : ℚ := 0
  let teamCollaborationScore : ℚ := min 100 ((activeDevelopers : ℚ) * 20)
  let newContributors := 0
  let busFactor : ℚ :=
    if activeDevelopers > 1 then 100 - (100 / (activeDevelopers : ℚ)) else 0
  let overallScore : ℚ := min 100
    ((currentVelocity * 10) +
     (teamCollaborationScore * (3 / 10)) +
     ((1 - largeCommitFrequency) * 20) +
     (max 0 (10 - refactoringRatio) * 5))
  { overallScore := overallScore,
    developmentVelocity :=
      { current := currentVelocity, trend := trend, changePercent := changePercent },
    teamCollaboration :=
      { score := teamCollaborationScore, activeDevelopers := activeDevelopers,
        newContributors := newContributors, busFactor := busFactor },
    codeQuality :=
      { averageCommitSize := averageCommitSize, refactoringRatio := refactoringRatio,
        largeCommitFrequency := largeCommitFrequency } }

end AnalyticsV1

namespace Analytics

/-- `normalizeAuthorName` of the final analytics generation (lines 1490–1504):
excluded users first, then alias groups, then pass-through — identical logic
to the stats route's normalizer. -/
def normalizeAuthorName (authorName : String) (config : ProjectConfig) : String :=
  if authorName ∈ config.excludedUsers then ""
  else
    match config.groupedAuthors.find? (fun g => authorName ∈ g.aliases) with
    | some g => g.primaryName
    | none => authorName

/-- `calculateConsistencyScore` (lines 927–958).  `sqrtQ` models `Math.sqrt`,
which has no exact rational counterpart; none of the verified claims depends
on its values, and every theorem below holds for an arbitrary `sqrtQ`.
Buckets commits into `getWeekKey` weeks, early-returns 0 on degenerate input
and 10 on a single bucket, else maps the coefficient of variation of the
bucket counts onto a 0–10 scale rounded to two decimals. -/
def calculateConsistencyScore (sqrtQ : ℚ → ℚ) (commits : List CommitData)
    (totalWeeks : ℚ) : ℚ :=
  if commits.length = 0 ∨ totalWeeks ≤ 0 then 0
  else
    let commitsByWeek : List ((Int × Int) × Nat) :=
      commits.foldl (fun m c => updateA (getWeekKey c.date) 0 (fun n => n + 1) m) []
    let commitCounts : List Nat := commitsByWeek.map (fun p => p.2)
    if commitCounts.length = 0 then 0
    else if commitCounts.length = 1 then 10
    else
      let mean : ℚ := ((commitCounts.map (fun n => (n : ℚ))).sum) / commitCounts.length
      let variance : ℚ :=
        ((commitCounts.map (fun n => ((n : ℚ) - mean) ^ 2)).sum) / commitCounts.length
      let stdDev := sqrtQ variance
      let coefficientOfVariation : ℚ := if mean > 0 then stdDev / mean else 0
      let consistencyScore : ℚ := max 0 (10 - coefficientOfVariation * 10)
      round2 consistencyScore

/-- `calculateTrend` (lines 966–981): sorts the commits by date, splits at the
midpoint and compares the sizes of the two halves against 1.2× and 0.8×. -/
def calculateTrend (commits : List CommitData) : Trend30 :=
  if commits.length < 2 then .stable
  else
    let sortedCommits := sortCommits commits
    let midPoint := commits.length / 2
    let recentCommits := sortedCommits.drop midPoint
    let olderCommits := sortedCommits.take midPoint
    let recentAvg : ℚ := if recentCommits.length > 0 then recentCommits.length else 0
    let olderAvg : ℚ := if olderCommits.length > 0 then olderCommits.length else 0
    if recentAvg > olderAvg * (12 / 10) then .improving
    else if recentAvg < olderAvg * (8 / 10) then .declining
    else .stable

/-- The caller's commit array after `calculateTrend` returns:
`commits.sort(...)` (line 970) sorts the array in place, so past the length
guard the caller observes the date-sorted permutation. -/
def calculateTrendArrayAfter (commits : List CommitData) : List CommitData :=
  if commits.length < 2 then commits else sortCommits commits

/-- The velocity trend and change percentage of `calculateProjectHealth`
(lines 1131–1158): with at least 4 commits, compare the rounded velocities of
the two date-sorted halves; `changePercent` is the rounded relative change
(note: a fraction, later compared against ±20). -/
def trendAndChange (commits : List CommitData) : TrendDir × ℚ :=
  if commits.length ≥ 4 then
    let sortedCommits := sortCommits commits
    let midPoint := commits.length / 2
    let firstHalf := sortedCommits.take midPoint
    let secondHalf := sortedCommits.drop midPoint
    let firstHalfWeeks : ℚ :=
      max 1 (((firstHalf.getLastD dummyCommit).date - (firstHalf.headD dummyCommit).date) / 7)
    let secondHalfWeeks : ℚ :=
      max 1 (((secondHalf.getLastD dummyCommit).date - (secondHalf.headD dummyCommit).date) / 7)
    let firstHalfVelocity : ℚ :=
      if firstHalfWeeks > 0 then round2 ((firstHalf.length : ℚ) / firstHalfWeeks) else 0
    let secondHalfVelocity : ℚ :=
      if secondHalfWeeks > 0 then round2 ((secondHalf.length : ℚ) / secondHalfWeeks) else 0
    if firstHalfVelocity > 0 then
      let changePercent := round2 ((secondHalfVelocity - firstHalfVelocity) / firstHalfVelocity)
      if changePercent > 20 then (.increasing, changePercent)
      else if changePercent < -20 then (.decreasing, changePercent)
      else (.stable, changePercent)
    else (.stable, 0)
  else (.stable, 0)

/-- The caller's commit array after `calculateProjectHealth` returns: the
in-place `commits.sort(...)` of line 1136 runs only past the
`commits.length >= 4` guard. -/
def healthArrayAfter (commits : List CommitData) : List CommitData :=
  if commits.length ≥ 4 then sortCommits commits else commits

/-- `calculateProjectHealth` of the final analytics generation (lines
1078–1235).  `now` models `new Date()` in days (the wall-clock anchor of the
new-contributor window); `console.log` calls are effect-free and omitted. -/
def calculateProjectHealth (commits : List CommitData)
    (contributors : List (String × ContributorData)) (totalWeeks : ℚ) (now : ℚ) :
    ProjectHealth :=
  let activeDevelopers := contributors.length
  let totalCommits := commits.length
  let totalLines : ℚ := (commits.map commitChanges).sum
  let averageCommitSize : ℚ :=
    if totalCommits > 0 then round2 (totalLines / totalCommits) else 0
  let refactoringRatio : ℚ := round2
    (((commits.map (fun c =>
        match c.diff with
        | some files =>
          let deletions := (files.map (fun f => f.deletions)).sum
          let insertions := (files.map (fun f => f.insertions)).sum
          deletions / max 1 insertions
        | none => 0)).sum) / max 1 (totalCommits : ℚ))
  let largeCommits := (commits.filter (fun c =>
    match c.diff with
    | some files => decide ((files.map (fun f => f.insertions + f.deletions)).sum > 500)
    | none => false)).length
  let largeCommitFrequency : ℚ :=
    if totalCommits > 0 then round2 ((largeCommits : ℚ) / (totalCommits : ℚ)) else 0
  let currentVelocity : ℚ :=
    if totalWeeks > 0 then round2 ((totalCommits : ℚ) / totalWeeks) else 0
  let tc := trendAndChange commits
  let trend := tc.1
  let changePercent := tc.2
  let contributorPercentages : List (String × ℚ) :=
    contributors.map (fun p => (p.1, round2 ((p.2.commits : ℚ) / (totalCommits : ℚ))))
  let criticalContributors := contributorPercentages.filter (fun p => decide (p.2 > 20))
  let busFactor := criticalContributors.length
  let teamCollaborationScore : ℚ := min 100
    (max 0 ((activeDevelopers : ℚ) * 15 + (busFactor : ℚ) * 10 +
      (max 0 (10 - largeCommitFrequency * 100)) * 5))
  let thirtyDaysAgo : ℚ := now - 30
  let newContributors := (contributors.filter (fun p =>
    let contributorCommits := commits.filter (fun c => c.author == p.1)
    match contributorCommits with
    | [] => false
    | _ =>
      decide (((sortCommits contributorCommits).headD dummyCommit).date ≥ thirtyDaysAgo))).length
  let s1 : ℚ := 100
  let s2 := if currentVelocity < 1 then s1 - 20
    else if currentVelocity < 2 then s1 - 10 else s1
  let s3 := if activeDevelopers ≤ 1 then s2 - 30
    else if activeDevelopers ≤ 2 then s2 - 15 else s2
  let s4 := if busFactor ≤ 1 then s3 - 25
    else if busFactor ≤ 2 then s3 - 10 else s3
  let s5 := if trend = .decreasing ∧ changePercent < -50 then s4 - 15
    else if trend = .decreasing then s4 - 5 else s4
  let s6 := if averageCommitSize > 500 then s5 - 10
    else if averageCommitSize > 200 then s5 - 5 else s5
  let s7 := if trend = .increasing ∧ changePercent > 20 then s6 + 10 else s6
  { overallScore := max 0 (min 100 s7),
    developmentVelocity :=
      { current := currentVelocity, trend := trend, changePercent := changePercent },
    teamCollaboration :=
      { score := teamCollaborationScore, activeDevelopers := activeDevelopers,
        newContributors := newContributors, busFactor := busFactor },
    codeQuality :=
      { averageCommitSize := averageCommitSize, refactoringRatio := refactoringRatio,
        largeCommitFrequency := largeCommitFrequency } }

end Analytics

/-- First-day-of-week setting of the global configuration. -/
inductive WeekStart
  | sunday
  | monday
deriving DecidableEq

/-- High/low tag of an anomaly point. -/
inductive HighLow
  | high
  | low
deriving DecidableEq

namespace Chart

/-- One point of the daily series fed to the trend chart (`TrendData`);
`date` is the day ordinal of the ISO day string. -/
structure TrendData where
  date : Int
  count : ℚ
  contributorCount : Nat
  linesAdded : ℚ
  linesDeleted : ℚ
deriving DecidableEq

/-- One detected anomaly point. -/
structure Anomaly where
  date : Int
  value : ℚ
  type : HighLow
deriving DecidableEq

/-- One forecast point. -/
structure PredPoint where
  date : Int
  value : ℚ
deriving DecidableEq

/-- Result record of `calculateTrendAnalysis`.  `volatilitySq` holds the
square of the source's (unrounded) volatility — the coefficient of variation
`sqrt(variance)/mean` squares to `variance/mean²`, which is rational; the
source value is zero exactly when this field is zero.  The seasonality maps
are association lists from day-of-week / month keys to mean counts. -/
structure TrendAnalysisResult where
  slope : ℚ
  trend : TrendDir
  volatilitySq : ℚ
  anomalies : List Anomaly
  prediction : List PredPoint
  seasonalityDow : List (Int × ℚ)
  seasonalityMoy : List (Int × ℚ)
deriving DecidableEq

/-- The neutral result returned for fewer than 2 data points (lines 686–695
of `TrendAnalysisChart.tsx`). -/
def neutralResult : TrendAnalysisResult :=
  { slope := 0, trend := .stable, volatilitySq := 0, anomalies := [],
    prediction := [], seasonalityDow := [], seasonalityMoy := [] }

/-- The regression sums of `calculateTrendAnalysis` (lines 697–709) and the
closed-form slope: `(n·sumXY − sumX·sumY) / (n·sumX2 − sumX²)`. -/
def regressionSlope (data : List TrendData) : ℚ :=
  let y := data.map (fun d => d.count)
  let n : ℚ := y.length
  let x := (List.range y.length).map (fun i => (i : ℚ))
  let sumX := x.sum
  let sumY := y.sum
  let sumXY := ((x.zip y).map (fun p => p.1 * p.2)).sum
  let sumX2 := (x.map (fun xi => xi * xi)).sum
  (n * sumXY - sumX * sumY) / (n * sumX2 - sumX * sumX)

/-- The regression intercept `(sumY − slope·sumX) / n`. -/
def regressionIntercept (data : List TrendData) : ℚ :=
  let y := data.map (fun d => d.count)
  let n : ℚ := y.length
  let sumX := ((List.range y.length).map (fun i => (i : ℚ))).sum
  (y.sum - regressionSlope data * sumX) / n

/-- The mean of the series (`sumY / n`). -/
def seriesMean (data : List TrendData) : ℚ :=
  (data.map (fun d => d.count)).sum / (data.length : ℚ)

/-- The population variance of the series (line 719). -/
def seriesVariance (data : List TrendData) : ℚ :=
  ((data.map (fun d => (d.count - seriesMean data) ^ 2)).sum) / (data.length : ℚ)

/-- The anomaly decision for the enumerated point `(i, d)` (lines 727–737):
`predicted = slope·i + intercept`, flag when `|d.count − predicted|` exceeds
`2·sqrt(variance)` — embedded as the equivalent squared comparison
`difference² > 4·variance` (see `chart_anomaly_threshold_matches_spec`) —
tagging `high` when the difference is positive, else `low`. -/
def anomalyEntry (data : List TrendData) (p : Nat × TrendData) : Option Anomaly :=
  let predicted := regressionSlope data * (p.1 : ℚ) + regressionIntercept data
  let difference := p.2.count - predicted
  if difference ^ 2 > 4 * seriesVariance data then
    some { date := p.2.date, value := p.2.count,
           type := if difference > 0 then .high else .low }
  else none

/-- The anomaly list of the analysis. -/
def anomalies (data : List TrendData) : List Anomaly :=
  data.enum.filterMap (anomalyEntry data)

/-- A placeholder data point for the `getLastD` read the source only performs
on a non-empty series. -/
def dummyTrend : TrendData :=
  { date := 0, count := 0, contributorCount := 0, linesAdded := 0, linesDeleted := 0 }

/-- The 7-day forecast (lines 740–749): the regression line extrapolated at
indices `n..n+6`, floored at 0 and rounded to two decimals, dated by simple
day increments past the last observed date. -/
def prediction (data : List TrendData) : List PredPoint :=
  (List.range 7).map (fun (i : Nat) =>
    let nextIndex : ℚ := (data.length : ℚ) + (i : ℚ)
    let predictedValue := max 0 (regressionSlope data * nextIndex + regressionIntercept data)
    let nextDate := (data.getLastD dummyTrend).date + (i : Int) + 1
    { date := nextDate, value := round2 predictedValue })

/-- The configurable day-of-week key of one data point (lines 755–765):
JavaScript `getDay`, remapped so that 0 is the configured first day. -/
def dowKey (firstDayOfWeek : WeekStart) (d : Int) : Int :=
  let dow := dowOfDay d
  match firstDayOfWeek with
  | .monday => if dow = 0 then 6 else dow - 1
  | .sunday => dow

/-- Group the counts of the series by a key function (the push loops of lines
752–773), in first-seen key order. -/
def groupCounts (key : Int → Int) (data : List TrendData) : List (Int × List ℚ) :=
  data.foldl (fun m d => updateA (key d.date) [] (fun l => l ++ [d.count]) m) []

/-- Mean of each group (lines 776–785). -/
def groupMeans (groups : List (Int × List ℚ)) : List (Int × ℚ) :=
  groups.map (fun p => (p.1, p.2.sum / (p.2.length : ℚ)))

/-- `calculateTrendAnalysis` of `src/components/TrendAnalysisChart.tsx`
(lines 685–798).  Fewer than 2 points returns the neutral record; otherwise
ordinary least squares over indices, the ±0.1 slope band, coefficient of
variation (represented squared, see `TrendAnalysisResult`), the 2-standard-
deviation anomaly scan, the 7-day forecast, and day-of-week / month
seasonality means. -/
def calculateTrendAnalysis (data : List TrendData)
    (firstDayOfWeek : WeekStart) : TrendAnalysisResult :=
  if data.length < 2 then neutralResult
  else
    let slope := regressionSlope data
    let trend : TrendDir :=
      if |slope| > 1 / 10 then (if slope > 0 then .increasing else .decreasing)
      else .stable
    let mean := seriesMean data
    let variance := seriesVariance data
    let volatilitySq : ℚ := if mean > 0 then variance / mean ^ 2 else 0
    { slope := round3 slope,
      trend := trend,
      volatilitySq := volatilitySq,
      anomalies := anomalies data,
      prediction := prediction data,
      seasonalityDow := groupMeans (groupCounts (dowKey firstDayOfWeek) data),
      seasonalityMoy := groupMeans (groupCounts monthOfDay data) }

end Chart

/-! ## Helper lemmas -/

theorem min100_bounds (s : ℚ) (hs : 0 ≤ s) : 0 ≤ min 100 s ∧ min 100 s ≤ 100 :=
  ⟨le_min (by norm_num) hs, min_le_left _ _⟩

theorem clamp_bounds (s : ℚ) : 0 ≤ max 0 (min 100 s) ∧ max 0 (min 100 s) ≤ 100 :=
  ⟨le_max_left _ _, max_le (by norm_num) (min_le_left _ _)⟩

/-! ## C1 -/

/-- C1: for every commit set, contributor aggregate and configuration, the
overall project health score is in `[0, 100]` — for the final health scorer
(which clamps with `Math.max(0, Math.min(100, ...))`) and for the earlier one
(whose `Math.min(100, ...)` of non-negative addends is also in range), no
matter how extreme the inputs (zero contributors, empty commit lists, any
week count or wall-clock anchor). -/
theorem health_score_clamped (commits : List CommitData)
    (contributors : List (String × ContributorData)) (totalWeeks now : ℚ) :
    (0 ≤ (Analytics.calculateProjectHealth commits contributors totalWeeks now).overallScore ∧
      (Analytics.calculateProjectHealth commits contributors totalWeeks now).overallScore ≤ 100) ∧
    (0 ≤ (AnalyticsV1.calculateProjectHealth commits contributors totalWeeks).overallScore ∧
      (AnalyticsV1.calculateProjectHealth commits contributors totalWeeks).overallScore ≤ 100) := by
  constructor
  · exact clamp_bounds _
  · unfold AnalyticsV1.calculateProjectHealth
    apply min100_bounds
    have hvel : (0 : ℚ) ≤
        (if totalWeeks > 0 then ((commits.length : ℚ)) / totalWeeks else 0) := by
      split
      · exact div_nonneg (by positivity) (le_of_lt (by assumption))
      · exact le_refl 0
    have hcollab : (0 : ℚ) ≤ min 100 ((contributors.length : ℚ) * 20) := by
      apply le_min (by norm_num)
      positivity
    have hfreq : (if commits.length > 0 then
        (((commits.filter (fun c =>
          match c.diff with
          | some files => decide ((files.map (fun f => f.insertions + f.deletions)).sum > 500)
          | none => false)).length : ℚ)) / ((commits.length : ℚ)) else 0) ≤ 1 := by
      split
      · rename_i hpos
        rw [div_le_one (by exact_mod_cast hpos)]
        exact_mod_cast List.length_filter_le _ _
      · norm_num
    have h4 : (0 : ℚ) ≤ max 0 (10 - ((commits.map (fun c =>
        match c.diff with
        | some files =>
          ((files.map (fun f => f.deletions)).sum) / max 1 ((files.map (fun f => f.insertions)).sum)
        | none => 0)).sum) / max 1 ((commits.length : ℚ))) * 5 := by positivity
    have := hvel
    nlinarith [hvel, hcollab, hfreq, h4]

/-! ## C3 -/

/-- C3 counterexample: an identity that is simultaneously excluded and an
alias is NOT dropped by the earlier analytics normalizer (lines 562–571 of
`src/app/api/analytics/route.ts`, one of the claim's cited sources): it is
mapped to the group's primary name instead of the drop sentinel `""`. -/
theorem normalizer_exclusion_counterexample :
    AnalyticsV1.normalizeAuthorName "dup"
        { groupedAuthors := [{ primaryName := "Primary", aliases := ["dup"] }],
          excludedUsers := ["dup"] } = "Primary" ∧
    "dup" ∈ (ProjectConfig.mk [AuthorGroup.mk "Primary" ["dup"]] ["dup"]).excludedUsers ∧
    ("Primary" : String) ≠ "" := by
  refine ⟨?_, by simp, by simp⟩
  simp [AnalyticsV1.normalizeAuthorName, List.find?]

/-- C3 amended: the stats-route normalizer and the final analytics-route
normalizer implement exactly the spec's rule (excluded → drop; else first
alias group → primary name; else unchanged), so exclusion dominates grouping
in them; the earlier analytics-route normalizer never consults the exclusion
list — it behaves as the rule would under an empty exclusion list, mapping an
identity that is both excluded and an alias to the group's primary name. -/
theorem normalizer_rule_refinement (name : String) (cfg : ProjectConfig) :
    Stats.normalizeAuthorName name cfg =
      (match normalizeRuleSpec name cfg with | none => "" | some s => s) ∧
    Analytics.normalizeAuthorName name cfg =
      (match normalizeRuleSpec name cfg with | none => "" | some s => s) ∧
    AnalyticsV1.normalizeAuthorName name cfg =
      (match normalizeRuleSpec name { cfg with excludedUsers := [] } with
       | none => "" | some s => s) := by
  unfold Stats.normalizeAuthorName Analytics.normalizeAuthorName
    AnalyticsV1.normalizeAuthorName normalizeRuleSpec
  refine ⟨?_, ?_, ?_⟩
  · by_cases h : name ∈ cfg.excludedUsers
    · simp [h]
    · simp only [h, if_false]
      cases hf : cfg.groupedAuthors.find? (fun g => name ∈ g.aliases) <;> simp [hf]
  · by_cases h : name ∈ cfg.excludedUsers
    · simp [h]
    · simp only [h, if_false]
      cases hf : cfg.groupedAuthors.find? (fun g => name ∈ g.aliases) <;> simp [hf]
  · simp only [List.not_mem_nil, if_false]
    cases hf : cfg.groupedAuthors.find? (fun g => name ∈ g.aliases) <;> simp [hf]

/-! ## C6 -/

/-- C6: on a daily series with fewer than 2 points the time-series analyzer
returns the neutral record — slope 0, trend "stable", zero volatility (the
squared representation is zero exactly when the source value is), no
anomalies, no forecast, empty seasonality maps — and, being a total Lean
function, raises nothing. -/
theorem trend_analysis_neutral_defaults (data : List Chart.TrendData)
    (firstDayOfWeek : WeekStart) (h : data.length < 2) :
    Chart.calculateTrendAnalysis data firstDayOfWeek =
      { slope := 0, trend := .stable, volatilitySq := 0, anomalies := [],
        prediction := [], seasonalityDow := [], seasonalityMoy := [] } := by
  unfold Chart.calculateTrendAnalysis
  rw [if_pos h]
  rfl

/-- C6 witness: the empty series takes the neutral branch. -/
theorem trend_analysis_neutral_defaults_witness :
    ([] : List Chart.TrendData).length < 2 ∧
    Chart.calculateTrendAnalysis [] WeekStart.sunday =
      { slope := 0, trend := .stable, volatilitySq := 0, anomalies := [],
        prediction := [], seasonalityDow := [], seasonalityMoy := [] } :=
  ⟨by norm_num, trend_analysis_neutral_defaults [] WeekStart.sunday (by norm_num)⟩

/-! ## C9 -/

/-- C9 counterexample: the engine does not leave the commit list unchanged —
`calculateTrend` sorts the caller's array in place (line 970), so two commits
passed in reverse date order come back reordered. -/
theorem trend_sort_mutates_input :
    Analytics.calculateTrendArrayAfter
        [{ hash := "", author := "", date := 1, message := "", body := none, diff := none },
         dummyCommit] ≠
      [{ hash := "", author := "", date := 1, message := "", body := none, diff := none },
       dummyCommit] := by
  norm_num [Analytics.calculateTrendArrayAfter, sortCommits, List.insertionSort,
    List.orderedInsert, commitDateLE, dummyCommit]

/-- C9 amended: the in-place date sorts of `calculateTrend` (line 970) and
`calculateProjectHealth` (line 1136) may reorder the caller's commit array,
but that is the only observable effect on the inputs: the array after either
call is a permutation of the array before, so the commit records themselves
and their multiset are preserved. -/
theorem engine_preserves_commit_multiset (commits : List CommitData) :
    (Analytics.calculateTrendArrayAfter commits).Perm commits ∧
    (Analytics.healthArrayAfter commits).Perm commits := by
  constructor
  · unfold Analytics.calculateTrendArrayAfter
    split
    · exact List.Perm.refl _
    · exact List.perm_insertionSort _ _
  · unfold Analytics.healthArrayAfter
    split
    · exact List.perm_insertionSort _ _
    · exact List.Perm.refl _

/-! ## C10 -/

theorem foldWeek_same_key (k : Int × Int) (l : List CommitData)
    (h : ∀ a ∈ l, getWeekKey a.date = k) (n : Nat) :
    l.foldl (fun m c => updateA (getWeekKey c.date) 0 (fun x => x + 1) m) [(k, n)] =
      [(k, n + l.length)] := by
  induction l generalizing n with
  | nil => simp
  | cons a t ih =>
    simp only [List.foldl_cons]
    rw [h a (by simp), show updateA k 0 (fun x => x + 1) [(k, n)] = [(k, n + 1)] by
      simp [updateA]]
    rw [ih (fun x hx => h x (by simp [hx]))]
    simp only [List.length_cons]
    rw [show n + 1 + t.length = n + (t.length + 1) from by omega]

theorem foldWeek_same_key_nil (k : Int × Int) (l : List CommitData)
    (h : ∀ a ∈ l, getWeekKey a.date = k) (hne : l ≠ []) :
    l.foldl (fun m c => updateA (getWeekKey c.date) 0 (fun x => x + 1) m) [] =
      [(k, l.length)] := by
  match l with
  | a :: t =>
    simp only [List.foldl_cons]
    rw [show updateA (getWeekKey a.date) 0 (fun x => x + 1) [] = [(getWeekKey a.date, 1)]
      from rfl]
    rw [h a (by simp)]
    rw [foldWeek_same_key k t (fun x hx => h x (by simp [hx])) 1]
    simp [Nat.add_comm]

/-- C10: a contributor whose commits all fall into a single `getWeekKey` week
bucket gets consistency score exactly 10, for any positive total-weeks
denominator and any week count the window spans (and any model of
`Math.sqrt`, which that branch never consults). -/
theorem consistency_single_week_max (sqrtQ : ℚ → ℚ) (commits : List CommitData)
    (totalWeeks : ℚ) (h1 : commits ≠ []) (h2 : 0 < totalWeeks)
    (h3 : ∀ c1 ∈ commits, ∀ c2 ∈ commits, getWeekKey c1.date = getWeekKey c2.date) :
    Analytics.calculateConsistencyScore sqrtQ commits totalWeeks = 10 := by
  obtain ⟨c0, hc0⟩ := List.exists_mem_of_ne_nil commits h1
  have hfold := foldWeek_same_key_nil (getWeekKey c0.date) commits
    (fun a ha => h3 a ha c0 hc0) h1
  have hguard : ¬ (commits.length = 0 ∨ totalWeeks ≤ 0) := by
    push_neg
    exact ⟨fun hl => h1 (List.length_eq_zero.mp hl), h2⟩
  simp only [Analytics.calculateConsistencyScore, if_neg hguard, hfold]
  have hlen : commits.length ≠ 0 := fun hl => h1 (List.length_eq_zero.mp hl)
  simp

/-- C10 witness: two commits on the same day land in one week bucket and
score exactly 10 even though the window has `totalWeeks = 5`. -/
theorem consistency_single_week_max_witness :
    ([dummyCommit, dummyCommit] : List CommitData) ≠ [] ∧ (0 : ℚ) < 5 ∧
    Analytics.calculateConsistencyScore (fun q => q) [dummyCommit, dummyCommit] 5 = 10 :=
  ⟨by simp, by norm_num,
    consistency_single_week_max (fun q => q) [dummyCommit, dummyCommit] 5 (by simp)
      (by norm_num)
      (by intro c1 h1 c2 h2; simp at h1 h2; rw [h1, h2])⟩

/-! ## C8 -/

theorem calculateTrend_eq (commits : List CommitData) :
    Analytics.calculateTrend commits =
      (if commits.length < 2 then Trend30.stable
       else if ((commits.length - commits.length / 2 : Nat) : ℚ) >
           ((commits.length / 2 : Nat) : ℚ) * (12 / 10) then Trend30.improving
       else if ((commits.length - commits.length / 2 : Nat) : ℚ) <
           ((commits.length / 2 : Nat) : ℚ) * (8 / 10) then Trend30.declining
       else Trend30.stable) := by
  unfold Analytics.calculateTrend
  split
  · rfl
  · rename_i h
    have hlen : (sortCommits commits).length = commits.length :=
      (List.perm_insertionSort _ _).length_eq
    have hrec : commits.length - commits.length / 2 > 0 := by omega
    have hold : commits.length / 2 > 0 := by omega
    simp only [List.length_drop, List.length_take, hlen, min_eq_left (Nat.div_le_self _ _),
      if_pos hrec, if_pos hold]

/-- C8 amended: `calculateTrend` does not consult 30-day windows — it sorts
the commits by date, splits the list at the midpoint, and compares the sizes
of the two halves: "improving" when the second half is larger than 1.2× the
first half, "declining" when smaller than 0.8× of it, else "stable"; fewer
than 2 (not 4) commits forces "stable". -/
theorem trend_halves_characterization (commits : List CommitData) :
    Analytics.calculateTrend commits =
      (if commits.length < 2 then Trend30.stable
       else if ((commits.length - commits.length / 2 : Nat) : ℚ) >
           ((commits.length / 2 : Nat) : ℚ) * (12 / 10) then Trend30.improving
       else if ((commits.length - commits.length / 2 : Nat) : ℚ) <
           ((commits.length / 2 : Nat) : ℚ) * (8 / 10) then Trend30.declining
       else Trend30.stable) :=
  calculateTrend_eq commits

/-- C8 counterexample: three commits (fewer than 4) on one day are tagged
"improving", not "stable" — the second half of the split (2 commits) exceeds
1.2× the first half (1 commit). -/
theorem trend_three_commits_improving :
    Analytics.calculateTrend (List.replicate 3 dummyCommit) = Trend30.improving ∧
    (List.replicate 3 dummyCommit).length < 4 := by
  constructor
  · rw [calculateTrend_eq]
    norm_num
  · norm_num

/-! ## C7 -/

theorem sq_gt_four_iff_abs_gt_two_sqrt (d v : ℚ) (hv : 0 ≤ v) :
    d ^ 2 > 4 * v ↔ |(d : ℝ)| > 2 * Real.sqrt (v : ℝ) := by
  have hvR : (0 : ℝ) ≤ (v : ℝ) := by exact_mod_cast hv
  have hsplit : (2 : ℝ) * Real.sqrt (v : ℝ) = Real.sqrt (4 * (v : ℝ)) := by
    rw [show (4 : ℝ) * (v : ℝ) = 2 ^ 2 * (v : ℝ) by norm_num,
      Real.sqrt_mul (by positivity), Real.sqrt_sq (by norm_num)]
  rw [hsplit]
  by_cases hd : (d : ℝ) = 0
  · have hd0 : d = 0 := by exact_mod_cast hd
    subst hd0
    simp only [Rat.cast_zero, abs_zero]
    constructor
    · intro hgt
      nlinarith
    · intro hgt
      have := Real.sqrt_nonneg (4 * (v : ℝ))
      nlinarith
  · have habs : (0 : ℝ) < |(d : ℝ)| := abs_pos.mpr hd
    constructor
    · intro hgt
      have h2 : 4 * (v : ℝ) < |(d : ℝ)| ^ 2 := by
        rw [sq_abs]
        exact_mod_cast hgt
      exact (Real.sqrt_lt' habs).mpr h2
    · intro hgt
      have h2 := (Real.sqrt_lt' habs).mp hgt
      rw [sq_abs] at h2
      exact_mod_cast h2

theorem seriesVariance_nonneg (data : List Chart.TrendData) :
    0 ≤ Chart.seriesVariance data := by
  unfold Chart.seriesVariance
  apply div_nonneg
  · apply List.sum_nonneg
    intro x hx
    obtain ⟨d, _, rfl⟩ := List.mem_map.mp hx
    positivity
  · positivity

/-- C7: for a series with at least 2 points, the point at index `i` is
flagged as an anomaly exactly when the absolute deviation of its value from
the regression prediction strictly exceeds two standard deviations (stated
literally over `ℝ`, so a point exactly at `predicted + 2·stdev` is not
flagged), and a flagged point is tagged "high" precisely when the actual
value exceeds the predicted value (else "low").  `Chart.anomalyEntry` is the
per-point decision out of which `Chart.anomalies` is built by `filterMap`
over the enumerated series. -/
theorem chart_anomaly_threshold_matches_spec (data : List Chart.TrendData)
    (h : 2 ≤ data.length) (i : Nat) (hi : i < data.length) :
    ((Chart.anomalyEntry data (i, data.get ⟨i, hi⟩)).isSome ↔
      |(((data.get ⟨i, hi⟩).count -
          (Chart.regressionSlope data * (i : ℚ) + Chart.regressionIntercept data) : ℚ) : ℝ)| >
        2 * Real.sqrt ((Chart.seriesVariance data : ℚ) : ℝ)) ∧
    (∀ a : Chart.Anomaly, Chart.anomalyEntry data (i, data.get ⟨i, hi⟩) = some a →
      (a.type = HighLow.high ↔
        (data.get ⟨i, hi⟩).count >
          Chart.regressionSlope data * (i : ℚ) + Chart.regressionIntercept data)) := by
  have hvar := seriesVariance_nonneg data
  set x := data.get ⟨i, hi⟩ with hx
  set D : ℚ := x.count - (Chart.regressionSlope data * (i : ℚ) + Chart.regressionIntercept data)
    with hD
  have hentry : Chart.anomalyEntry data (i, x) =
      (if D ^ 2 > 4 * Chart.seriesVariance data then
        some { date := x.date, value := x.count,
               type := if D > 0 then HighLow.high else HighLow.low }
      else none) := rfl
  by_cases hflag : D ^ 2 > 4 * Chart.seriesVariance data
  · rw [hentry, if_pos hflag]
    constructor
    · exact iff_of_true rfl ((sq_gt_four_iff_abs_gt_two_sqrt D _ hvar).mp hflag)
    · intro a ha
      have ha2 := Option.some.inj ha
      subst ha2
      by_cases hpos : D > 0
      · simp only [if_pos hpos, true_iff]
        linarith [sub_pos.mp hpos]
      · simp only [if_neg hpos]
        constructor
        · intro hcontra
          cases hcontra
        · intro hgt
          exact absurd (sub_pos.mpr hgt) hpos
  · rw [hentry, if_neg hflag]
    constructor
    · exact iff_of_false (by simp)
        (fun habs => hflag ((sq_gt_four_iff_abs_gt_two_sqrt D _ hvar).mpr habs))
    · intro a ha
      cases ha

/-- C7 witness: on the two-point all-zero series the deviation is zero, the
variance is zero, the point at index 0 is not flagged, and both equivalences
hold. -/
theorem chart_anomaly_threshold_matches_spec_witness :
    2 ≤ ([Chart.dummyTrend, Chart.dummyTrend] : List Chart.TrendData).length ∧
    (((Chart.anomalyEntry [Chart.dummyTrend, Chart.dummyTrend]
        (0, ([Chart.dummyTrend, Chart.dummyTrend] : List Chart.TrendData).get
          ⟨0, by norm_num⟩)).isSome ↔
      |(((([Chart.dummyTrend, Chart.dummyTrend] : List Chart.TrendData).get
            ⟨0, by norm_num⟩).count -
          (Chart.regressionSlope [Chart.dummyTrend, Chart.dummyTrend] * ((0 : Nat) : ℚ) +
            Chart.regressionIntercept [Chart.dummyTrend, Chart.dummyTrend]) : ℚ) : ℝ)| >
        2 * Real.sqrt ((Chart.seriesVariance [Chart.dummyTrend, Chart.dummyTrend] : ℚ) : ℝ)) ∧
    (∀ a : Chart.Anomaly, Chart.anomalyEntry [Chart.dummyTrend, Chart.dummyTrend]
        (0, ([Chart.dummyTrend, Chart.dummyTrend] : List Chart.TrendData).get
          ⟨0, by norm_num⟩) = some a →
      (a.type = HighLow.high ↔
        (([Chart.dummyTrend, Chart.dummyTrend] : List Chart.TrendData).get
            ⟨0, by norm_num⟩).count >
          Chart.regressionSlope [Chart.dummyTrend, Chart.dummyTrend] * ((0 : Nat) : ℚ) +
            Chart.regressionIntercept [Chart.dummyTrend, Chart.dummyTrend]))) :=
  ⟨by norm_num,
    chart_anomaly_threshold_matches_spec [Chart.dummyTrend, Chart.dummyTrend]
      (by norm_num) 0 (by norm_num)⟩

/-! ## C2 -/

/-- C2 (failing input evaluation): a single contributor holding 100 % of 5
commits.  The claimed bus factor is 1 (one contributor above the 20 %
threshold — third conjunct: 100 > 20), but `calculateProjectHealth` computes
`percentage` as `Math.round((commits/totalCommits)*100)/100`, a 0–1 fraction
(here exactly 1), and filters with `percentage > 20`, which no fraction can
pass — so the computed bus factor is 0, for this and every other input. -/
theorem bus_factor_fraction_vs_percent :
    (Analytics.calculateProjectHealth (List.replicate 5 dummyCommit)
        [("alice", { commits := 5, linesAdded := 0, linesDeleted := 0, filesChanged := 0 })]
        1 0).teamCollaboration.busFactor = 0 ∧
    round2 ((5 : ℚ) / 5) = 1 ∧
    (5 : ℚ) / 5 * 100 > 20 := by
  refine ⟨?_, ?_, by norm_num⟩
  · norm_num [Analytics.calculateProjectHealth, round2, round_eq, List.filter]
  · norm_num [round2, round_eq]

/-! ## C5 -/

theorem sumCommits_updateA (name : String)
    (f : Stats.ContributorStats → Stats.ContributorStats)
    (hf : ∀ s, (f s).commits = s.commits + 1)
    (l : List (String × Stats.ContributorStats)) :
    Stats.sumCommits (updateA name Stats.zeroStats f l) = Stats.sumCommits l + 1 := by
  induction l with
  | nil => simp [updateA, Stats.sumCommits, hf, Stats.zeroStats]
  | cons p rest ih =>
    unfold updateA
    split
    · simp only [Stats.sumCommits, List.map_cons, List.sum_cons, hf]
      omega
    · simp only [Stats.sumCommits, List.map_cons, List.sum_cons] at ih ⊢
      omega

theorem stepCommit_sum (author : Option String) (config : Option ProjectConfig)
    (st : Stats.ParseState) (c : Stats.CommitLogEntry) :
    Stats.sumCommits (Stats.stepCommit author config st c).contributors =
      Stats.sumCommits st.contributors +
        (if Stats.survives author config c then 1 else 0) ∧
    (Stats.stepCommit author config st c).totalCommitsWithConfig =
      st.totalCommitsWithConfig + (if Stats.survives author config c then 1 else 0) := by
  unfold Stats.stepCommit Stats.survives
  cases author with
  | none =>
    by_cases hn : Stats.normalizedAuthorOf config c == ""
    · simp [hn, eq_of_beq hn]
    · have hn2 : Stats.normalizedAuthorOf config c ≠ "" := by
        intro hcontra
        exact hn (by simp [hcontra])
      simp only [Bool.false_eq_true, if_false, hn]
      rw [sumCommits_updateA _ _ (fun s => rfl)]
      simp [hn, hn2]
  | some a =>
    by_cases ha : c.author_name == a
    · have ha2 : (c.author_name != a) = false := by simp_all
      by_cases hn : Stats.normalizedAuthorOf config c == ""
      · simp [ha2, hn, eq_of_beq hn]
      · have hn2 : Stats.normalizedAuthorOf config c ≠ "" := by
          intro hcontra
          exact hn (by simp [hcontra])
        simp only [ha2, Bool.false_eq_true, if_false, hn]
        rw [sumCommits_updateA _ _ (fun s => rfl)]
        simp [ha, hn, hn2]
    · have ha2 : (c.author_name != a) = true := by simp_all
      simp [ha2, ha]

theorem foldLog_sum (author : Option String) (config : Option ProjectConfig)
    (log : List Stats.CommitLogEntry) (st : Stats.ParseState) :
    Stats.sumCommits (Stats.foldLog author config log st).contributors =
      Stats.sumCommits st.contributors + (Stats.survivorsOf author config log).length ∧
    (Stats.foldLog author config log st).totalCommitsWithConfig =
      st.totalCommitsWithConfig + (Stats.survivorsOf author config log).length := by
  induction log generalizing st with
  | nil => simp [Stats.foldLog, Stats.survivorsOf]
  | cons c t ih =>
    simp only [Stats.foldLog, List.foldl_cons] at ih ⊢
    obtain ⟨ih1, ih2⟩ := ih (Stats.stepCommit author config st c)
    obtain ⟨hs1, hs2⟩ := stepCommit_sum author config st c
    have hfil : (Stats.survivorsOf author config (c :: t)).length =
        (if Stats.survives author config c then 1 else 0) +
          (Stats.survivorsOf author config t).length := by
      unfold Stats.survivorsOf
      rw [List.filter_cons]
      split <;> simp [Nat.add_comm]
    constructor
    · rw [ih1, hs1, hfil]
      omega
    · rw [ih2, hs2, hfil]
      omega

/-- C5: for every commit log, author filter and configuration, the sum of the
`commits` counters over the contributor aggregate equals the number of
commits that survive the author filter and normalization (equivalently, the
`totalCommitsWithConfig` counter) — excluded-author commits are counted
nowhere in the aggregate. -/
theorem aggregate_commit_sum_matches_survivors (log : List Stats.CommitLogEntry)
    (author : Option String) (config : Option ProjectConfig) :
    Stats.sumCommits (Stats.parseGitLog log author config).contributors =
      (Stats.survivorsOf author config log).length ∧
    (Stats.parseGitLog log author config).totalCommitsWithConfig =
      (Stats.survivorsOf author config log).length := by
  obtain ⟨h1, h2⟩ := foldLog_sum author config log Stats.initState
  unfold Stats.parseGitLog
  simp only []
  constructor
  · rw [h1]
    simp [Stats.initState, Stats.sumCommits]
  · rw [h2]
    simp [Stats.initState]

/-! ## C4 -/

theorem lookupA_updateA_self {K V : Type} [DecidableEq K] (k : K) (d : V) (f : V → V)
    (l : List (K × V)) :
    lookupA k (updateA k d f l) = some (f ((lookupA k l).getD d)) := by
  induction l with
  | nil => simp [updateA, lookupA]
  | cons p rest ih =>
    by_cases hp : p.1 = k
    · simp [updateA, lookupA, hp]
    · simp [updateA, lookupA, hp, ih]

theorem lookupA_updateA_ne {K V : Type} [DecidableEq K] (k k2 : K) (hne : k2 ≠ k)
    (d : V) (f : V → V) (l : List (K × V)) :
    lookupA k2 (updateA k d f l) = lookupA k2 l := by
  induction l with
  | nil =>
    simp only [updateA, lookupA]
    rw [if_neg (fun hcontra => hne hcontra.symm)]
  | cons p rest ih =>
    by_cases hp : p.1 = k
    · unfold updateA
      rw [if_pos hp]
      unfold lookupA
      simp only []
      have hpk2 : ¬ p.1 = k2 := by
        rw [hp]
        exact fun hc => hne hc.symm
      rw [if_neg hpk2, if_neg hpk2]
    · unfold updateA
      rw [if_neg hp]
      unfold lookupA
      by_cases hp2 : p.1 = k2
      · rw [if_pos hp2, if_pos hp2]
      · rw [if_neg hp2, if_neg hp2, ih]

theorem mem_keysOf_updateA {K V : Type} [DecidableEq K] (k k2 : K) (d : V) (f : V → V)
    (l : List (K × V)) :
    k2 ∈ keysOf (updateA k d f l) ↔ k2 = k ∨ k2 ∈ keysOf l := by
  induction l with
  | nil => simp [updateA, keysOf]
  | cons p rest ih =>
    by_cases hp : p.1 = k
    · subst hp
      unfold updateA
      rw [if_pos rfl]
      simp [keysOf]
    · unfold updateA
      rw [if_neg hp]
      simp only [keysOf, List.map_cons, List.mem_cons] at ih ⊢
      rw [ih]
      tauto

theorem stepCommit_counts (author : Option String) (config : Option ProjectConfig)
    (st : Stats.ParseState) (c : Stats.CommitLogEntry) :
    (Stats.stepCommit author config st c).commitCountsByDate =
      (if Stats.survives author config c
       then updateA c.day 0 (fun n => n + 1) st.commitCountsByDate
       else st.commitCountsByDate) := by
  unfold Stats.stepCommit Stats.survives
  cases author with
  | none =>
    by_cases hn : Stats.normalizedAuthorOf config c == ""
    · simp [hn]
      rw [if_pos (eq_of_beq hn)]
    · simp [hn]
      rw [if_neg (fun hcontra => hn (by simp [hcontra]))]
  | some a =>
    by_cases ha : c.author_name == a
    · have ha2 : (c.author_name != a) = false := by simp_all
      by_cases hn : Stats.normalizedAuthorOf config c == ""
      · simp [ha2, ha, hn]
        rw [if_pos (eq_of_beq hn)]
      · simp [ha2, ha, hn]
        rw [if_neg (fun hcontra => hn (by simp [hcontra]))]
    · have ha2 : (c.author_name != a) = true := by simp_all
      simp [ha2, ha]

theorem foldLog_countAt (author : Option String) (config : Option ProjectConfig)
    (log : List Stats.CommitLogEntry) (st : Stats.ParseState) (d : Int) :
    (lookupA d (Stats.foldLog author config log st).commitCountsByDate).getD 0 =
      (lookupA d st.commitCountsByDate).getD 0 +
        ((Stats.survivorsOf author config log).filter (fun c => c.day = d)).length := by
  induction log generalizing st with
  | nil => simp [Stats.foldLog, Stats.survivorsOf]
  | cons c t ih =>
    simp only [Stats.foldLog, List.foldl_cons] at ih ⊢
    rw [ih (Stats.stepCommit author config st c)]
    have hcnt := stepCommit_counts author config st c
    have hfil : Stats.survivorsOf author config (c :: t) =
        (if Stats.survives author config c then [c] else []) ++
          Stats.survivorsOf author config t := by
      unfold Stats.survivorsOf
      rw [List.filter_cons]
      split <;> simp
    rw [hfil]
    by_cases hs : Stats.survives author config c
    · rw [hcnt, if_pos hs]
      by_cases hd : c.day = d
      · subst hd
        rw [lookupA_updateA_self]
        simp only [Option.getD_some, if_pos hs, List.filter_append, List.length_append]
        simp [List.filter]
        omega
      · rw [lookupA_updateA_ne _ _ (fun hcontra => hd hcontra.symm)]
        simp only [if_pos hs, List.filter_append, List.length_append]
        simp [List.filter, hd]
    · rw [hcnt, if_neg hs]
      simp [hs]

theorem foldLog_mem_keys (author : Option String) (config : Option ProjectConfig)
    (log : List Stats.CommitLogEntry) (st : Stats.ParseState) (d : Int) :
    d ∈ keysOf (Stats.foldLog author config log st).commitCountsByDate ↔
      d ∈ keysOf st.commitCountsByDate ∨
        d ∈ (Stats.survivorsOf author config log).map (fun c => c.day) := by
  induction log generalizing st with
  | nil => simp [Stats.foldLog, Stats.survivorsOf]
  | cons c t ih =>
    simp only [Stats.foldLog, List.foldl_cons] at ih ⊢
    rw [ih (Stats.stepCommit author config st c)]
    have hcnt := stepCommit_counts author config st c
    have hfil : Stats.survivorsOf author config (c :: t) =
        (if Stats.survives author config c then [c] else []) ++
          Stats.survivorsOf author config t := by
      unfold Stats.survivorsOf
      rw [List.filter_cons]
      split <;> simp
    rw [hfil]
    by_cases hs : Stats.survives author config c
    · rw [hcnt, if_pos hs, mem_keysOf_updateA]
      simp [hs]
      tauto
    · rw [hcnt, if_neg hs]
      simp [hs]

theorem foldl_min_le_start (l : List Int) (a : Int) : l.foldl min a ≤ a := by
  induction l generalizing a with
  | nil => simp
  | cons b t ih =>
    simp only [List.foldl_cons]
    exact le_trans (ih (min a b)) (min_le_left a b)

theorem foldl_min_le_mem (l : List Int) (a x : Int) (hx : x ∈ l) : l.foldl min a ≤ x := by
  induction l generalizing a with
  | nil => cases hx
  | cons b t ih =>
    simp only [List.foldl_cons]
    rcases List.mem_cons.mp hx with rfl | hx2
    · exact le_trans (foldl_min_le_start t (min a x)) (min_le_right a x)
    · exact ih (min a b) hx2

theorem foldl_min_mem (l : List Int) (a : Int) : l.foldl min a = a ∨ l.foldl min a ∈ l := by
  induction l generalizing a with
  | nil => simp
  | cons b t ih =>
    simp only [List.foldl_cons]
    rcases ih (min a b) with heq | hmem
    · rcases min_choice a b with hab | hab
      · left
        rw [heq, hab]
      · right
        rw [heq, hab]
        simp
    · right
      exact List.mem_cons_of_mem b hmem

theorem minList_mem (l : List Int) (hne : l ≠ []) : minList l ∈ l := by
  match l with
  | a :: t =>
    simp only [minList]
    rcases foldl_min_mem t a with heq | hmem
    · rw [heq]
      simp
    · exact List.mem_cons_of_mem a hmem

theorem minList_le (l : List Int) (x : Int) (hx : x ∈ l) : minList l ≤ x := by
  match l with
  | a :: t =>
    simp only [minList]
    rcases List.mem_cons.mp hx with rfl | hx2
    · exact foldl_min_le_start t x
    · exact foldl_min_le_mem t a x hx2

theorem foldl_max_ge_start (l : List Int) (a : Int) : a ≤ l.foldl max a := by
  induction l generalizing a with
  | nil => simp
  | cons b t ih =>
    simp only [List.foldl_cons]
    exact le_trans (le_max_left a b) (ih (max a b))

theorem foldl_max_ge_mem (l : List Int) (a x : Int) (hx : x ∈ l) : x ≤ l.foldl max a := by
  induction l generalizing a with
  | nil => cases hx
  | cons b t ih =>
    simp only [List.foldl_cons]
    rcases List.mem_cons.mp hx with rfl | hx2
    · exact le_trans (le_max_right a x) (foldl_max_ge_start t (max a x))
    · exact ih (max a b) hx2

theorem foldl_max_mem (l : List Int) (a : Int) : l.foldl max a = a ∨ l.foldl max a ∈ l := by
  induction l generalizing a with
  | nil => simp
  | cons b t ih =>
    simp only [List.foldl_cons]
    rcases ih (max a b) with heq | hmem
    · rcases max_choice a b with hab | hab
      · left
        rw [heq, hab]
      · right
        rw [heq, hab]
        simp
    · right
      exact List.mem_cons_of_mem b hmem

theorem maxList_mem (l : List Int) (hne : l ≠ []) : maxList l ∈ l := by
  match l with
  | a :: t =>
    simp only [maxList]
    rcases foldl_max_mem t a with heq | hmem
    · rw [heq]
      simp
    · exact List.mem_cons_of_mem a hmem

theorem le_maxList (l : List Int) (x : Int) (hx : x ∈ l) : x ≤ maxList l := by
  match l with
  | a :: t =>
    simp only [maxList]
    rcases List.mem_cons.mp hx with rfl | hx2
    · exact foldl_max_ge_start t x
    · exact foldl_max_ge_mem t a x hx2

theorem getLastD_mem_of_ne_nil {α : Type} (l : List α) (d0 : α) (h : l ≠ []) :
    l.getLastD d0 ∈ l := by
  induction l generalizing d0 with
  | nil => exact absurd rfl h
  | cons a t ih =>
    rw [List.getLastD_cons]
    cases t with
    | nil => simp
    | cons b t2 => exact List.mem_cons_of_mem a (ih a (by simp))

theorem sorted_head_le (a : Stats.ActivityEntry) (l : List Stats.ActivityEntry)
    (hs : List.Sorted Stats.entryLE (a :: l)) :
    ∀ x ∈ a :: l, a.date ≤ x.date := by
  intro x hx
  rcases List.mem_cons.mp hx with rfl | hx2
  · exact le_refl _
  · exact (List.sorted_cons.mp hs).1 x hx2

theorem sorted_le_getLastD (l : List Stats.ActivityEntry) (d0 : Stats.ActivityEntry)
    (hs : List.Sorted Stats.entryLE l) :
    ∀ x ∈ l, x.date ≤ (l.getLastD d0).date := by
  induction l generalizing d0 with
  | nil => intro x hx; cases hx
  | cons a t ih =>
    intro x hx
    rw [List.getLastD_cons]
    obtain ⟨hall, htail⟩ := List.sorted_cons.mp hs
    cases t with
    | nil =>
      simp only [List.getLastD]
      rcases List.mem_cons.mp hx with rfl | hx2
      · exact le_refl _
      · cases hx2
    | cons b t2 =>
      rcases List.mem_cons.mp hx with rfl | hx2
      · exact hall _ (getLastD_mem_of_ne_nil (b :: t2) x (by simp))
      · exact ih a htail x hx2

theorem sorted_gap_entries (st : Stats.ParseState) (f l : Int) :
    List.Sorted Stats.entryLE ((Stats.dayRange f l).map (Stats.entryOfDay st)) := by
  unfold Stats.dayRange
  split
  · rw [List.map_map]
    refine List.Pairwise.map _ (fun (a b : Nat) hab => ?_) (List.pairwise_lt_range _)
    show f + (a : Int) ≤ f + (b : Int)
    omega
  · simp

theorem gap_entries_dates (st : Stats.ParseState) (f l : Int) :
    ((Stats.dayRange f l).map (Stats.entryOfDay st)).map (fun e => e.date) =
      Stats.dayRange f l := by
  rw [List.map_map]
  have hcomp : ((fun e : Stats.ActivityEntry => e.date) ∘ Stats.entryOfDay st) =
      fun d => d := rfl
  rw [hcomp]
  exact List.map_id _

theorem commitActivityOf_spec (st : Stats.ParseState) (days : List Int)
    (counts : Int → Nat)
    (hdaysne : days ≠ [])
    (hkeys : ∀ dd : Int, dd ∈ keysOf st.commitCountsByDate ↔ dd ∈ days)
    (hcount : ∀ dd : Int, (lookupA dd st.commitCountsByDate).getD 0 = counts dd) :
    ((Stats.commitActivityOf st).map (fun e => e.date) =
      Stats.dayRange (minList days) (maxList days)) ∧
    (∀ e ∈ Stats.commitActivityOf st, e.count = counts e.date) := by
  have hperm : ((Stats.sortActivity (st.commitCountsByDate.map (Stats.entryOfPair st))).map
      (fun e => e.date)).Perm (keysOf st.commitCountsByDate) := by
    have h1 := (List.perm_insertionSort Stats.entryLE
      (st.commitCountsByDate.map (Stats.entryOfPair st))).map (fun e => e.date)
    have h3 : (st.commitCountsByDate.map (Stats.entryOfPair st)).map (fun e => e.date) =
        keysOf st.commitCountsByDate := by
      rw [List.map_map]
      rfl
    rw [h3] at h1
    exact h1
  have hsortedS : List.Sorted Stats.entryLE
      (Stats.sortActivity (st.commitCountsByDate.map (Stats.entryOfPair st))) :=
    List.sorted_insertionSort _ _
  unfold Stats.commitActivityOf
  cases hsp : Stats.sortActivity (st.commitCountsByDate.map (Stats.entryOfPair st)) with
  | nil =>
    exfalso
    obtain ⟨d0, hd0⟩ := List.exists_mem_of_ne_nil days hdaysne
    have hmem : d0 ∈ (Stats.sortActivity
        (st.commitCountsByDate.map (Stats.entryOfPair st))).map (fun e => e.date) :=
      hperm.mem_iff.mpr ((hkeys d0).mpr hd0)
    rw [hsp] at hmem
    cases hmem
  | cons first rest =>
    have hsortedC : List.Sorted Stats.entryLE (first :: rest) := hsp ▸ hsortedS
    have hpermC : ((first :: rest).map (fun e => e.date)).Perm
        (keysOf st.commitCountsByDate) := hsp ▸ hperm
    have hfirstmem : first.date ∈ days := by
      apply (hkeys _).mp
      exact hpermC.mem_iff.mp (by simp)
    have hfirst : first.date = minList days := by
      apply le_antisymm
      · have hminmem : minList days ∈ (first :: rest).map (fun e => e.date) :=
          hpermC.mem_iff.mpr ((hkeys _).mpr (minList_mem days hdaysne))
        obtain ⟨x, hxmem, hxdate⟩ := List.mem_map.mp hminmem
        rw [← hxdate]
        exact sorted_head_le first rest hsortedC x hxmem
      · exact minList_le days first.date hfirstmem
    have hlastS : (first :: rest).getLastD first ∈ first :: rest :=
      getLastD_mem_of_ne_nil _ _ (by simp)
    have hlastmem : ((first :: rest).getLastD first).date ∈ days := by
      apply (hkeys _).mp
      apply hpermC.mem_iff.mp
      exact List.mem_map.mpr ⟨_, hlastS, rfl⟩
    have hlast : ((first :: rest).getLastD first).date = maxList days := by
      apply le_antisymm
      · exact le_maxList days _ hlastmem
      · have hmaxmem : maxList days ∈ (first :: rest).map (fun e => e.date) :=
          hpermC.mem_iff.mpr ((hkeys _).mpr (maxList_mem days hdaysne))
        obtain ⟨x, hxmem, hxdate⟩ := List.mem_map.mp hmaxmem
        rw [← hxdate]
        exact sorted_le_getLastD _ first hsortedC x hxmem
    have hsort_eq : Stats.sortActivity
        ((Stats.dayRange first.date ((first :: rest).getLastD first).date).map
          (Stats.entryOfDay st)) =
        (Stats.dayRange first.date ((first :: rest).getLastD first).date).map
          (Stats.entryOfDay st) :=
      (sorted_gap_entries st _ _).insertionSort_eq
    simp only []
    constructor
    · rw [hsort_eq, gap_entries_dates, hfirst, hlast]
    · intro e he
      rw [hsort_eq] at he
      obtain ⟨d, hd, rfl⟩ := List.mem_map.mp he
      show (lookupA d st.commitCountsByDate).getD 0 = counts (Stats.entryOfDay st d).date
      rw [hcount d]
      rfl

/-- C4: for every commit log with at least one surviving commit, the
gap-filled `commitActivity` series has exactly one entry per calendar day
from the first to the last surviving commit day inclusive, in ascending
order (its dates are exactly `dayRange min max`), and every entry's
`count` is the number of surviving commits of that day — in particular 0 on
days with no commits. -/
theorem gapfill_dense_ascending_zero (log : List Stats.CommitLogEntry)
    (author : Option String) (config : Option ProjectConfig)
    (h : Stats.survivorsOf author config log ≠ []) :
    ((Stats.parseGitLog log author config).commitActivity.map (fun e => e.date) =
      Stats.dayRange
        (minList ((Stats.survivorsOf author config log).map (fun c => c.day)))
        (maxList ((Stats.survivorsOf author config log).map (fun c => c.day)))) ∧
    (∀ e ∈ (Stats.parseGitLog log author config).commitActivity,
      e.count = ((Stats.survivorsOf author config log).filter
        (fun c => c.day = e.date)).length) := by
  have hact : (Stats.parseGitLog log author config).commitActivity =
      Stats.commitActivityOf (Stats.foldLog author config log Stats.initState) := rfl
  have hdaysne : (Stats.survivorsOf author config log).map (fun c => c.day) ≠ [] := by
    intro hcontra
    exact h (List.map_eq_nil_iff.mp hcontra)
  have hkeys : ∀ dd : Int,
      dd ∈ keysOf (Stats.foldLog author config log Stats.initState).commitCountsByDate ↔
        dd ∈ (Stats.survivorsOf author config log).map (fun c => c.day) := by
    intro dd
    rw [foldLog_mem_keys]
    simp [Stats.initState, keysOf]
  have hcount : ∀ dd : Int,
      (lookupA dd (Stats.foldLog author config log
        Stats.initState).commitCountsByDate).getD 0 =
        ((Stats.survivorsOf author config log).filter (fun c => c.day = dd)).length := by
    intro dd
    rw [foldLog_countAt]
    simp [Stats.initState, lookupA]
  obtain ⟨h1, h2⟩ := commitActivityOf_spec
    (Stats.foldLog author config log Stats.initState)
    ((Stats.survivorsOf author config log).map (fun c => c.day))
    (fun dd => ((Stats.survivorsOf author config log).filter
      (fun c => c.day = dd)).length)
    hdaysne hkeys hcount
  rw [hact]
  exact ⟨h1, h2⟩

/-- C4 witness: two surviving commits on days 0 and 2 produce the dense,
ascending three-day series 0,1,2 with the gap day 1 at count 0. -/
theorem gapfill_dense_ascending_zero_witness :
    Stats.survivorsOf none none
        [{ hash := "", day := 0, author_name := "a", body := none, diff := none },
         { hash := "", day := 2, author_name := "a", body := none, diff := none }] ≠ [] ∧
    ((Stats.parseGitLog
        [{ hash := "", day := 0, author_name := "a", body := none, diff := none },
         { hash := "", day := 2, author_name := "a", body := none, diff := none }]
        none none).commitActivity.map (fun e => e.date) =
      Stats.dayRange
        (minList ((Stats.survivorsOf none none
          [{ hash := "", day := 0, author_name := "a", body := none, diff := none },
           { hash := "", day := 2, author_name := "a", body := none, diff := none }]).map
            (fun c => c.day)))
        (maxList ((Stats.survivorsOf none none
          [{ hash := "", day := 0, author_name := "a", body := none, diff := none },
           { hash := "", day := 2, author_name := "a", body := none, diff := none }]).map
            (fun c => c.day)))) ∧
    (∀ e ∈ (Stats.parseGitLog
        [{ hash := "", day := 0, author_name := "a", body := none, diff := none },
         { hash := "", day := 2, author_name := "a", body := none, diff := none }]
        none none).commitActivity,
      e.count = ((Stats.survivorsOf none none
        [{ hash := "", day := 0, author_name := "a", body := none, diff := none },
         { hash := "", day := 2, author_name := "a", body := none, diff := none }]).filter
          (fun c => c.day = e.date)).length) :=
  ⟨by decide,
    (gapfill_dense_ascending_zero
      [{ hash := "", day := 0, author_name := "a", body := none, diff := none },
       { hash := "", day := 2, author_name := "a", body := none, diff := none }]
      none none (by decide)).1,
    (gapfill_dense_ascending_zero
      [{ hash := "", day := 0, author_name := "a", body := none, diff := none },
       { hash := "", day := 2, author_name := "a", body := none, diff := none }]
      none none (by decide)).2⟩
